import Mathlib

/-!
Shallow embedding of the client-side synchronization core of the trading
dashboard frontend (`App.jsx` and `components/ScannerTable.jsx`), together
with theorems settling the specification's claims about it.

Conventions of the embedding:
* JavaScript values that may be `undefined`/`null` are `Option`s;
  `a || b` on such values is modelled by truthiness-aware helpers
  (`jsOr`, `jsOrB`) that treat `none`, `""` and `false` as falsy.
* The mutable React refs/state touched by the WebSocket lifecycle are
  gathered into one `ConnState` record, and the event handlers
  (`ws.onopen`, `ws.onclose`, timer firing, effect-cleanup disposal)
  become a single `step` function on it.
* JavaScript's `Array.prototype.sort` (stable per the ECMAScript spec)
  is modelled by `List.mergeSort` with the comparator's non-positive
  test as the `le` relation.
-/

/-! ### Connection manager (`App.jsx`: `getReconnectDelay`, `connectWebSocket`,
    the connection effect and its cleanup) -/

/-- `const getReconnectDelay = (attempt) => Math.min(1000 * Math.pow(2, attempt), 30000);` -/
def getReconnectDelay (attempt : Nat) : Nat := min (1000 * 2 ^ attempt) 30000

/-- The mutable connection-lifecycle cell of `App`:
`reconnectAttemptRef`, `reconnectTimerRef` (as the delay of the pending
reconnect timer, `none` when no timer is pending), the `wsConnected`
state, and `unmountedRef`. -/
structure ConnState where
  attempt : Nat := 0
  timer : Option Nat := none
  connected : Bool := false
  disposed : Bool := false
  deriving DecidableEq, Repr

/-- Lifecycle events hitting the connection cell: `ws.onopen`, `ws.onclose`,
a scheduled reconnect timer reaching its deadline, and the effect cleanup
(`unmountedRef.current = true; clearTimeout(...); wsRef.current.close()`). -/
inductive ConnEvent where
  | wsOpen
  | wsClose
  | timerFire
  | dispose
  deriving DecidableEq, Repr

/-- One handler invocation.  Mirrors the source:
* `ws.onopen`: guarded by `unmountedRef`; sets `wsConnected` and resets
  `reconnectAttemptRef` to 0;
* `ws.onclose`: guarded by `unmountedRef`; clears `wsConnected`, schedules a
  reconnect after `getReconnectDelay(attempt)` and increments the attempt;
* a firing timer runs `connectWebSocket`, which returns at once when
  `unmountedRef` is set and otherwise consumes the pending timer;
* the cleanup sets `unmountedRef` and cancels the pending timer with
  `clearTimeout` (it does not touch the attempt counter or `wsConnected`;
  the `close()` it issues is ignored by the guarded `onclose`). -/
def ConnState.step (s : ConnState) : ConnEvent → ConnState
  | .wsOpen => if s.disposed then s else { s with connected := true, attempt := 0 }
  | .wsClose =>
      if s.disposed then s else
      { s with connected := false
               timer := some (getReconnectDelay s.attempt)
               attempt := s.attempt + 1 }
  | .timerFire => if s.disposed then s else { s with timer := none }
  | .dispose => { s with disposed := true, timer := none }

/-- `n` consecutive close events. -/
def ConnState.closes (s : ConnState) : Nat → ConnState
  | 0 => s
  | n + 1 => (s.closes n).step .wsClose

theorem ConnState.closes_disposed (s : ConnState) (h : s.disposed = false) :
    ∀ n, (s.closes n).disposed = false := by
  intro n
  induction n with
  | zero => exact h
  | succ n ih => simp [closes, step, ih]

theorem ConnState.closes_attempt (s : ConnState) (h : s.disposed = false) :
    ∀ n, (s.closes n).attempt = s.attempt + n := by
  intro n
  induction n with
  | zero => rfl
  | succ n ih => simp [closes, step, closes_disposed s h n, ih]; omega

theorem ConnState.step_of_disposed (s : ConnState)
    (hd : s.disposed = true) (ht : s.timer = none) :
    ∀ e, s.step e = s := by
  intro e
  cases e
  · simp [step, hd]
  · simp [step, hd]
  · simp [step, hd]
  · cases s
    simp_all [step]

/-- C1 — the K-th (0-indexed) reconnect delay after consecutive closes is
`min(1000·2^K, 30000)`, literally `1000, 2000, 4000, 8000, 16000, 30000, …`,
and reaching the open state resets the attempt counter to 0 so the next
close schedules `1000` ms again. -/
theorem reconnect_backoff_schedule (s : ConnState)
    (hd : s.disposed = false) (h0 : s.attempt = 0) :
    (∀ K, (s.closes (K + 1)).timer = some (min (1000 * 2 ^ K) 30000)) ∧
    ((List.range 6).map (fun K => (s.closes (K + 1)).timer)
      = [some 1000, some 2000, some 4000, some 8000, some 16000, some 30000]) ∧
    (∀ t : ConnState, t.disposed = false →
      (t.step .wsOpen).attempt = 0 ∧
      ((t.step .wsOpen).step .wsClose).timer = some 1000) := by
  have key : ∀ K, (s.closes (K + 1)).timer = some (min (1000 * 2 ^ K) 30000) := by
    intro K
    have hdK := ConnState.closes_disposed s hd K
    have haK := ConnState.closes_attempt s hd K
    simp [ConnState.closes, ConnState.step, hdK, haK, h0, getReconnectDelay]
  refine ⟨key, ?_, ?_⟩
  · simp only [List.range, List.range.loop, List.map, key]
    norm_num
  · intro t htd
    constructor
    · simp [ConnState.step, htd]
    · simp [ConnState.step, htd, getReconnectDelay]

/-- Witness for the hypotheses of `reconnect_backoff_schedule` at the
freshly initialised connection state. -/
theorem reconnect_backoff_schedule_witness :
    ((({} : ConnState).closes 6).timer = some 30000) ∧
    ((({} : ConnState).closes 1).timer = some 1000) := by
  have h := reconnect_backoff_schedule {} rfl rfl
  exact ⟨by rw [h.1 5]; rfl, by rw [h.1 0]; rfl⟩

/-- C2 — after disposal the pending reconnect timer is cancelled
(`timer = none`), and no subsequent event sequence (opens, closes, timer
deadlines elapsing, repeated disposal) changes the connection state at all. -/
theorem dispose_is_terminal (s : ConnState) (evs : List ConnEvent) :
    (s.step .dispose).timer = none ∧
    (s.step .dispose).disposed = true ∧
    evs.foldl ConnState.step (s.step .dispose) = s.step .dispose := by
  have hd : (s.step .dispose).disposed = true := by simp [ConnState.step]
  have ht : (s.step .dispose).timer = none := by simp [ConnState.step]
  refine ⟨ht, hd, ?_⟩
  induction evs with
  | nil => rfl
  | cons e es ih =>
      simpa [List.foldl, ConnState.step_of_disposed _ hd ht e] using ih

/-! ### Market clock (`App.jsx`: `_getMarketStatus`, `_nextOpenStr`) -/

/-- A wall-clock instant already converted to exchange-local (ET) time,
at minute resolution: `days` counts days from an epoch falling on a
Sunday (so `days % 7` is JavaScript's `Date.getDay()`: 0 = Sunday,
6 = Saturday), `mins` is minutes since local midnight. -/
structure ETTime where
  days : Nat
  mins : Nat
  deriving DecidableEq, Repr

def ETTime.dayOfWeek (t : ETTime) : Nat := t.days % 7

/-- Result of `_getMarketStatus`.  `open` is a Lean keyword, hence `open_`.
The source attaches no `nextOpen` field on the weekend branch, which the
embedding renders as the default `none`. -/
structure MarketStatus where
  open_ : Bool
  label : String
  nextOpen : Option ETTime := none
  deriving DecidableEq, Repr

/-- The source's `while (d.getDay() === 0 || d.getDay() === 6) d.setDate(d.getDate() + 1)`
loop, advancing one day at a time past Saturday/Sunday.  The loop runs at
most twice (Saturday then Sunday); fuel 7 makes the recursion structural
without changing its result. -/
def advancePastWeekend : Nat → Nat → Nat
  | 0, d => d
  | fuel + 1, d => if d % 7 == 0 || d % 7 == 6 then advancePastWeekend fuel (d + 1) else d

theorem advancePastWeekend_eq (d : Nat) :
    advancePastWeekend 7 d
      = if d % 7 = 6 then d + 2 else if d % 7 = 0 then d + 1 else d := by
  have e1 : (d + 1) % 7 = (d % 7 + 1) % 7 := by omega
  have e2 : (d + 2) % 7 = (d % 7 + 2) % 7 := by omega
  have h7 : d % 7 < 7 := Nat.mod_lt _ (by norm_num)
  interval_cases h : d % 7 <;> simp_all [advancePastWeekend]

/-- `_nextOpenStr(etNow, openMins)`: take today at `openMins`; if that is
not after `etNow` move to the next day; then skip weekend days.  (The
source formats the result for display; the embedding keeps the instant.) -/
def nextOpenStr (etNow : ETTime) (openMins : Nat) : ETTime :=
  let d : ETTime := { days := etNow.days, mins := openMins }
  let d := if openMins ≤ etNow.mins then { d with days := d.days + 1 } else d
  { days := advancePastWeekend 7 d.days, mins := openMins }

/-- `_getMarketStatus()`, parameterised by the ET-converted current time. -/
def getMarketStatus (et : ETTime) : MarketStatus :=
  let day := et.dayOfWeek
  let mins := et.mins
  let opn := 9 * 60 + 30
  let close := 16 * 60
  if day == 0 || day == 6 then { open_ := false, label := "weekend" }
  else if mins < opn then
    { open_ := false, label := "pre-market", nextOpen := some (nextOpenStr et opn) }
  else if mins ≥ close then
    { open_ := false, label := "after-hours", nextOpen := some (nextOpenStr et opn) }
  else { open_ := true, label := "open" }

/-- C5, counterexample — at a Saturday noon (day index 6 ≡ Saturday) the
market-status function reports phase `weekend` but attaches *no*
`nextOpen` timestamp, contradicting the claim that its
`nextOpenTimestamp` equals the following Monday 09:30. -/
theorem weekend_has_no_nextOpen :
    getMarketStatus ⟨6, 720⟩
      = { open_ := false, label := "weekend", nextOpen := none } ∧
    (getMarketStatus ⟨6, 720⟩).nextOpen ≠ some ⟨8, 570⟩ := by
  constructor
  · rfl
  · intro h
    simp [getMarketStatus, ETTime.dayOfWeek] at h

/-- C5, amended — any Saturday/Sunday instant yields phase `weekend` with
no `nextOpenTimestamp`; on weekdays outside the session the attached
`nextOpenTimestamp` is the next weekday's 09:30: the same day for
pre-market, and for after-hours the closest strictly later non-weekend
day (skipping Saturday/Sunday one day at a time). -/
theorem market_status_next_open (et : ETTime) :
    ((et.dayOfWeek = 0 ∨ et.dayOfWeek = 6) →
      getMarketStatus et = { open_ := false, label := "weekend", nextOpen := none }) ∧
    (1 ≤ et.dayOfWeek → et.dayOfWeek ≤ 5 → et.mins < 570 →
      getMarketStatus et
        = { open_ := false, label := "pre-market", nextOpen := some ⟨et.days, 570⟩ }) ∧
    (1 ≤ et.dayOfWeek → et.dayOfWeek ≤ 5 → 960 ≤ et.mins →
      ∃ n : ETTime,
        getMarketStatus et
          = { open_ := false, label := "after-hours", nextOpen := some n } ∧
        n.mins = 570 ∧ n.dayOfWeek ≠ 0 ∧ n.dayOfWeek ≠ 6 ∧
        et.days < n.days ∧
        (∀ d, et.days < d → d < n.days → d % 7 = 0 ∨ d % 7 = 6)) := by
  obtain ⟨days, mins⟩ := et
  simp only [ETTime.dayOfWeek] at *
  refine ⟨?_, ?_, ?_⟩
  · rintro (h | h) <;> simp [getMarketStatus, ETTime.dayOfWeek, h]
  · intro h1 h5 hm
    have hne0 : ¬ (days % 7 == 0 || days % 7 == 6) := by
      simp only [Bool.or_eq_true, beq_iff_eq]
      omega
    simp only [getMarketStatus, ETTime.dayOfWeek, hne0, if_false, Bool.false_eq_true]
    rw [if_pos hm]
    have hno : nextOpenStr ⟨days, mins⟩ 570 = ⟨days, 570⟩ := by
      simp only [nextOpenStr]
      rw [if_neg (by omega)]
      simp only [advancePastWeekend]
      rw [if_neg hne0]
    rw [hno]
  · intro h1 h5 hm
    have hne0 : ¬ (days % 7 == 0 || days % 7 == 6) := by
      simp only [Bool.or_eq_true, beq_iff_eq]
      omega
    have hms : ¬ mins < 570 := by omega
    have hno : nextOpenStr ⟨days, mins⟩ 570
        = ⟨advancePastWeekend 7 (days + 1), 570⟩ := by
      simp only [nextOpenStr]
      rw [if_pos (by omega)]
    have hval : (days % 7 ≠ 5 ∧ advancePastWeekend 7 (days + 1) = days + 1) ∨
        (days % 7 = 5 ∧ advancePastWeekend 7 (days + 1) = days + 3) := by
      by_cases h5' : days % 7 = 5
      · right
        refine ⟨h5', ?_⟩
        have h6 : (days + 1) % 7 = 6 := by omega
        rw [advancePastWeekend_eq, if_pos h6]
      · left
        refine ⟨h5', ?_⟩
        have h6 : (days + 1) % 7 ≠ 6 := by omega
        have hz : (days + 1) % 7 ≠ 0 := by omega
        rw [advancePastWeekend_eq, if_neg h6, if_neg hz]
    refine ⟨⟨advancePastWeekend 7 (days + 1), 570⟩, ?_, rfl, ?_, ?_, ?_, ?_⟩
    · simp only [getMarketStatus, ETTime.dayOfWeek, hne0, if_false, Bool.false_eq_true]
      rw [if_neg hms, if_pos hm, hno]
    · simp only [ETTime.dayOfWeek]
      rcases hval with ⟨h5', hv⟩ | ⟨h5', hv⟩ <;> rw [hv] <;> omega
    · simp only [ETTime.dayOfWeek]
      rcases hval with ⟨h5', hv⟩ | ⟨h5', hv⟩ <;> rw [hv] <;> omega
    · show days < advancePastWeekend 7 (days + 1)
      rcases hval with ⟨h5', hv⟩ | ⟨h5', hv⟩ <;> rw [hv] <;> omega
    · intro d hd1 hd2
      have hd2' : d < advancePastWeekend 7 (days + 1) := hd2
      rcases hval with ⟨h5', hv⟩ | ⟨h5', hv⟩ <;> rw [hv] at hd2' <;> omega

/-- Witness for `market_status_next_open`: a Sunday morning, a Monday
pre-market instant, and a Friday after-hours instant (whose next open is
the following Monday, three days later). -/
theorem market_status_next_open_witness :
    getMarketStatus ⟨7, 300⟩
      = { open_ := false, label := "weekend", nextOpen := none } ∧
    getMarketStatus ⟨8, 500⟩
      = { open_ := false, label := "pre-market", nextOpen := some ⟨8, 570⟩ } ∧
    (getMarketStatus ⟨12, 1000⟩).label = "after-hours" := by
  refine ⟨(market_status_next_open ⟨7, 300⟩).1 (Or.inl rfl),
          (market_status_next_open ⟨8, 500⟩).2.1 (by decide) (by decide) (by decide),
          ?_⟩
  obtain ⟨n, hn, -⟩ :=
    (market_status_next_open ⟨12, 1000⟩).2.2 (by decide) (by decide) (by decide)
  rw [hn]

/-! ### Optimistic mutations (`App.jsx`: `handleOverrideToggle`,
    `handleEntryMethodChange`) and the render-time overlay merge -/

/-- The `overrides` map (symbol → stored boolean, `none` = no key). -/
def OvMap := String → Option Bool

/-- The `entryMethods` map (symbol → manually chosen method). -/
def EmMap := String → Option String

/-- `setOverrides(prev => ({...prev, [symbol]: v}))`. -/
def setKeyB (m : OvMap) (sym : String) (v : Bool) : OvMap :=
  fun k => if k = sym then some v else m k

/-- `setEntryMethods(prev => ({...prev, [symbol]: v}))`. -/
def setKeyS (m : EmMap) (sym : String) (v : String) : EmMap :=
  fun k => if k = sym then some v else m k

/-- `const newState = {...prev}; delete newState[symbol]; return newState;`. -/
def delKeyS (m : EmMap) (sym : String) : EmMap :=
  fun k => if k = sym then none else m k

/-- JavaScript `a || b` for possibly-absent booleans (`undefined` and
`false` are falsy). -/
def jsOrB (a : Option Bool) (b : Bool) : Bool :=
  match a with
  | some true => true
  | some false => b
  | none => b

/-- JavaScript `a || b` for possibly-absent strings (`undefined`, `null`
and `""` are falsy). -/
def jsOr (a b : Option String) : Option String :=
  match a with
  | some s => if s = "" then b else some s
  | none => b

/-- The displayed override checkbox value: `overrides[r.symbol] || false`. -/
def displayedOverride (m : OvMap) (sym : String) : Bool := jsOrB (m sym) false

/-- `handleOverrideToggle(symbol, checked)` run to completion: the
optimistic write `{...prev, [symbol]: checked}`, then, when the remote
command does not succeed (`ok = false`, covering both a non-ok response
and a thrown network error), the revert write `{...prev, [symbol]: !checked}`. -/
def handleOverrideToggle (m : OvMap) (sym : String) (checked : Bool) (ok : Bool) : OvMap :=
  let m1 := setKeyB m sym checked
  if ok then m1 else setKeyB m1 sym (!checked)

/-- `handleEntryMethodChange(symbol, method)` run to completion:
the optimistic write `{...prev, [symbol]: method}`, then, on failure,
`delete newState[symbol]` — the local override is removed entirely. -/
def handleEntryMethodChange (m : EmMap) (sym : String) (method : String) (ok : Bool) : EmMap :=
  let m1 := setKeyS m sym method
  if ok then m1 else delKeyS m1 sym

/-- The entry-method resolution chain of the `ScannerTable` results
mapping in `App`:
`entryMethods[r.symbol] || r.entry_method || config?.default_entry_method || 'prev_close'`. -/
def mergedEntryMethod (localOv server cfgDefault : Option String) : String :=
  (jsOr (jsOr (jsOr localOv server) cfgDefault) (some "prev_close")).getD "prev_close"

/-- C3, counterexample — the failure revert writes the logical negation of
the attempted value, not the stored pre-mutation boolean: starting from a
stored override of `true` for `"AAPL"`, a failing toggle request whose
attempted value is also `true` (as a raced duplicate toggle produces)
leaves the displayed flag `false`, though the pre-mutation boolean was
`true`. -/
theorem override_revert_is_negation_counterexample :
    displayedOverride (fun k => if k = "AAPL" then some true else none) "AAPL" = true ∧
    displayedOverride
      (handleOverrideToggle
        (fun k => if k = "AAPL" then some true else none) "AAPL" true false) "AAPL"
      = false := by
  constructor
  · rfl
  · rfl

/-- C3, amended — on a failed toggle the displayed flag becomes the
logical negation of the attempted value; whenever the attempted value is
the negation of the currently displayed boolean (which is what clicking
the rendered checkbox produces), this equals the pre-mutation boolean
exactly, and in particular a failed toggle from `false` to `true` returns
the displayed value to `false`. -/
theorem override_revert_negates_attempt (m : OvMap) (sym : String) (checked : Bool) :
    displayedOverride (handleOverrideToggle m sym checked false) sym = !checked ∧
    (checked = !(displayedOverride m sym) →
      displayedOverride (handleOverrideToggle m sym checked false) sym
        = displayedOverride m sym) := by
  have h : displayedOverride (handleOverrideToggle m sym checked false) sym = !checked := by
    simp only [displayedOverride, handleOverrideToggle, setKeyB, if_neg, Bool.false_eq_true,
      if_false, jsOrB]
    simp
    cases checked <;> rfl
  refine ⟨h, fun hc => ?_⟩
  rw [h, hc, Bool.not_not]

/-- Witness for `override_revert_negates_attempt`: a failed genuine toggle
from `false` to `true` on the empty override map ends displayed as `false`. -/
theorem override_revert_negates_attempt_witness :
    displayedOverride (handleOverrideToggle (fun _ => none) "TSLA" true false) "TSLA"
      = false := by
  have h := override_revert_negates_attempt (fun _ => none) "TSLA" true
  exact h.2 (by rfl)

/-- A scanner result record as served by the backend (`/scanner/results`
rows and `scan_results` frames).  Fields the claims touch; absent JSON
keys are `none`. -/
structure Row where
  symbol : String
  price : Option Int := none
  week_52_high : Option Int := none
  volume : Option Int := none
  entry_method : Option String := none
  override : Option Bool := none
  qualified : Bool := false
  in_portfolio : Bool := false
  deriving DecidableEq, Repr

/-- A row as handed to `ScannerTable`: the spread server record plus the
computed `override` / `entry_method` / `manually_set` keys (which shadow
any same-named server fields). -/
structure DisplayRow where
  row : Row
  override : Bool
  entry_method : String
  manually_set : Bool
  deriving DecidableEq, Repr

/-- The `results` mapping in `App`:
```
scanResults.map(r => ({
  ...r,
  override: overrides[r.symbol] || false,
  entry_method: entryMethods[r.symbol] || r.entry_method || config?.default_entry_method || 'prev_close',
  manually_set: !!entryMethods[r.symbol] || (r.entry_method && r.entry_method !== config?.default_entry_method)
}))
```
(`cfgDefault` is `config?.default_entry_method`, `none` when the config
has not loaded or has no such key). -/
def mapResult (r : Row) (ovs : OvMap) (ems : EmMap) (cfgDefault : Option String) : DisplayRow :=
  { row := r
    override := jsOrB (ovs r.symbol) false
    entry_method := mergedEntryMethod (ems r.symbol) r.entry_method cfgDefault
    manually_set :=
      match ems r.symbol with
      | some s => if s = "" then manuallySetFallback r cfgDefault else true
      | none => manuallySetFallback r cfgDefault }
where
  /-- truthiness of `(r.entry_method && r.entry_method !== config?.default_entry_method)` -/
  manuallySetFallback (r : Row) (cfgDefault : Option String) : Bool :=
    match r.entry_method with
    | some s => if s = "" then false else decide (some s ≠ cfgDefault)
    | none => false

/-- The entry-method `<select>` of `ScannerTable`:
`value={r.entry_method || 'prev_close'}` on the mapped row. -/
def selectEntryValue (d : DisplayRow) : String :=
  if d.entry_method = "" then "prev_close" else d.entry_method

theorem mergedEntryMethod_local (l : String) (hl : l ≠ "") (server cfg : Option String) :
    mergedEntryMethod (some l) server cfg = l := by
  simp [mergedEntryMethod, jsOr, hl]

theorem mergedEntryMethod_server (v : String) (hv : v ≠ "") (cfg : Option String) :
    mergedEntryMethod none (some v) cfg = v := by
  simp [mergedEntryMethod, jsOr, hv]

theorem mergedEntryMethod_cfg (d : String) (hd : d ≠ "") :
    mergedEntryMethod none none (some d) = d := by
  simp [mergedEntryMethod, jsOr, hd]

theorem mergedEntryMethod_ne_empty (l server cfg : Option String) :
    mergedEntryMethod l server cfg ≠ "" := by
  unfold mergedEntryMethod jsOr
  rcases l with - | ls
  · rcases server with - | ss
    · rcases cfg with - | cs
      · simp
      · by_cases h : cs = "" <;> simp [h]
    · by_cases h : ss = ""
      · subst h
        rcases cfg with - | cs
        · simp
        · by_cases h2 : cs = "" <;> simp [h2]
      · simp [h]
  · by_cases h : ls = ""
    · subst h
      simp only [if_pos rfl]
      rcases server with - | ss
      · rcases cfg with - | cs
        · simp
        · by_cases h2 : cs = "" <;> simp [h2]
      · by_cases h2 : ss = ""
        · subst h2
          rcases cfg with - | cs
          · simp
          · by_cases h3 : cs = "" <;> simp [h3]
        · simp [h2]
    · simp [h]

/-- C6 — when an entry-method assignment's remote command fails, the local
override for that symbol is removed entirely, and the displayed entry
method falls back through the resolution chain: the (now absent) local
override, else the server-supplied per-symbol value, else the global
default configuration value. -/
theorem entry_method_failure_falls_back (m : EmMap) (sym method : String)
    (server cfgDefault : Option String) :
    (handleEntryMethodChange m sym method false) sym = none ∧
    (∀ v, server = some v → v ≠ "" →
      mergedEntryMethod ((handleEntryMethodChange m sym method false) sym) server cfgDefault
        = v) ∧
    (server = none → ∀ d, cfgDefault = some d → d ≠ "" →
      mergedEntryMethod ((handleEntryMethodChange m sym method false) sym) server cfgDefault
        = d) := by
  have hdel : (handleEntryMethodChange m sym method false) sym = none := by
    simp [handleEntryMethodChange, delKeyS]
  refine ⟨hdel, ?_, ?_⟩
  · intro v hv hne
    rw [hdel, hv, mergedEntryMethod_server v hne]
  · intro hs d hd hne
    rw [hdel, hs, hd, mergedEntryMethod_cfg d hne]

/-- Witness for `entry_method_failure_falls_back`: a failed assignment to
`"market_open"` with server value `"limit_1pct"` present displays
`"limit_1pct"`; with no server value and global default `"prev_close"` it
displays `"prev_close"`. -/
theorem entry_method_failure_falls_back_witness :
    mergedEntryMethod
      ((handleEntryMethodChange (fun _ => none) "NVDA" "market_open" false) "NVDA")
      (some "limit_1pct") (some "prev_close") = "limit_1pct" ∧
    mergedEntryMethod
      ((handleEntryMethodChange (fun _ => none) "NVDA" "market_open" false) "NVDA")
      none (some "prev_close") = "prev_close" := by
  constructor
  · exact (entry_method_failure_falls_back (fun _ => none) "NVDA" "market_open"
      (some "limit_1pct") (some "prev_close")).2.1 "limit_1pct" rfl (by decide)
  · exact (entry_method_failure_falls_back (fun _ => none) "NVDA" "market_open"
      none (some "prev_close")).2.2 rfl "prev_close" rfl (by decide)

/-- C9, counterexample — the render-time merge does *not* fall back to a
server-supplied `override` field: for a server record carrying
`override: true` and no local overlay, the displayed override is `false`,
not the server value. -/
theorem override_ignores_server_field_counterexample :
    (mapResult { symbol := "AAPL", override := some true }
      (fun _ => none) (fun _ => none) none).override = false ∧
    ({ symbol := "AAPL", override := some true } : Row).override = some true := by
  exact ⟨rfl, rfl⟩

/-- C9, amended — every row handed to the table is the server record with
the two overlay keys written on top.  The `entry_method` overlay takes
precedence when present (and non-empty) and otherwise falls back to the
server-supplied field's chain; the `override` key, however, is computed
from the local overlay alone (`overrides[r.symbol] || false`): with no
overlay it is `false` regardless of any server-supplied `override` field.
All other server fields are passed through unchanged. -/
theorem render_merge_overlays (r : Row) (ovs : OvMap) (ems : EmMap)
    (cfgDefault : Option String) :
    (mapResult r ovs ems cfgDefault).row = r ∧
    (∀ b, ovs r.symbol = some b → (mapResult r ovs ems cfgDefault).override = b) ∧
    (ovs r.symbol = none → (mapResult r ovs ems cfgDefault).override = false) ∧
    (∀ m, ems r.symbol = some m → m ≠ "" →
      (mapResult r ovs ems cfgDefault).entry_method = m) ∧
    (ems r.symbol = none →
      (mapResult r ovs ems cfgDefault).entry_method
        = mergedEntryMethod none r.entry_method cfgDefault) := by
  refine ⟨rfl, ?_, ?_, ?_, ?_⟩
  · intro b hb
    cases b <;> simp [mapResult, hb, jsOrB]
  · intro hb
    simp [mapResult, hb, jsOrB]
  · intro m hm hne
    simp only [mapResult, hm]
    exact mergedEntryMethod_local m hne _ _
  · intro hm
    simp only [mapResult, hm]

/-- Witness for `render_merge_overlays`: overlay `true` beats the server's
`override: false`; overlay method `"market_open"` beats the server's
`entry_method`; and with no overlays the entry method falls to the
server-supplied `"limit_1pct"`. -/
theorem render_merge_overlays_witness :
    (mapResult { symbol := "MSFT", override := some false, entry_method := some "limit_1pct" }
      (fun _ => some true) (fun _ => some "market_open") none).override = true ∧
    (mapResult { symbol := "MSFT", override := some false, entry_method := some "limit_1pct" }
      (fun _ => some true) (fun _ => some "market_open") none).entry_method = "market_open" ∧
    (mapResult { symbol := "MSFT", override := some false, entry_method := some "limit_1pct" }
      (fun _ => none) (fun _ => none) none).entry_method = "limit_1pct" := by
  have h1 := render_merge_overlays
    ⟨"MSFT", none, none, none, some "limit_1pct", some false, false, false⟩
    (fun _ => some true) (fun _ => some "market_open") none
  have h2 := render_merge_overlays
    ⟨"MSFT", none, none, none, some "limit_1pct", some false, false, false⟩
    (fun _ => none) (fun _ => none) none
  refine ⟨h1.2.1 true rfl, h1.2.2.2.1 "market_open" rfl (by decide), ?_⟩
  rw [h2.2.2.2.2 rfl]
  exact mergedEntryMethod_server "limit_1pct" (by decide) none

/-- C10 — the entry-method resolution chain is total: with no local
override, no server-supplied value and no loaded global default, both the
mapped row's `entry_method` and the `<select>`'s displayed value are the
literal `"prev_close"`, and the chain never produces an absent (empty)
value for any inputs. -/
theorem entry_method_chain_total (r : Row) (ovs : OvMap) (ems : EmMap)
    (cfgDefault : Option String) :
    (ems r.symbol = none → r.entry_method = none → cfgDefault = none →
      (mapResult r ovs ems cfgDefault).entry_method = "prev_close" ∧
      selectEntryValue (mapResult r ovs ems cfgDefault) = "prev_close") ∧
    (mapResult r ovs ems cfgDefault).entry_method ≠ "" ∧
    selectEntryValue (mapResult r ovs ems cfgDefault)
      = (mapResult r ovs ems cfgDefault).entry_method := by
  have hne : (mapResult r ovs ems cfgDefault).entry_method ≠ "" :=
    mergedEntryMethod_ne_empty _ _ _
  refine ⟨?_, hne, ?_⟩
  · intro h1 h2 h3
    have hm : (mapResult r ovs ems cfgDefault).entry_method = "prev_close" := by
      simp only [mapResult, h1, h2, h3]
      rfl
    exact ⟨hm, by rw [selectEntryValue, hm]; rfl⟩
  · rw [selectEntryValue, if_neg hne]

/-- Witness for `entry_method_chain_total`: an all-absent row displays
`"prev_close"` in the select. -/
theorem entry_method_chain_total_witness :
    selectEntryValue (mapResult { symbol := "AMD" } (fun _ => none) (fun _ => none) none)
      = "prev_close" := by
  exact ((entry_method_chain_total { symbol := "AMD" } (fun _ => none) (fun _ => none)
    none).1 rfl rfl rfl).2

/-! ### Inbound frame handling (`App.jsx`: `ws.onmessage`, `status` and
    `data_update_progress` branches) -/

/-- The `dataUpdateStatus` slice `{status, done, total, current_symbol,
last_update, error}`.  Each field is `none` when the key is absent or
holds `undefined`/`null`. -/
structure DataUpdate where
  status : Option String := none
  done : Option Nat := none
  total : Option Nat := none
  current_symbol : Option String := none
  last_update : Option String := none
  error : Option String := none
  deriving DecidableEq, Repr

/-- A `data_update` sub-object piggybacked on a `status` frame: each field
is `some v` exactly when the incoming sub-object carries that key with a
value. -/
structure DataUpdatePatch where
  status : Option String := none
  done : Option Nat := none
  total : Option Nat := none
  current_symbol : Option String := none
  last_update : Option String := none
  error : Option String := none
  deriving DecidableEq, Repr

/-- The `data.data` payload of a `data_update_progress` frame. -/
structure ProgressData where
  done : Option Nat := none
  total : Option Nat := none
  current_symbol : Option String := none
  deriving DecidableEq, Repr

/-- The slices of React state the two message branches write:
`status` (held abstract) and `dataUpdateStatus` (initially `null`). -/
structure AppMsgState (σ : Type) where
  status : Option σ := none
  dataUpdateStatus : Option DataUpdate := none

/-- The shallow merge `{...(prev || {}), ...data.data.data_update}`:
keys present in the sub-object override, keys absent from it keep the
prior value. -/
def DataUpdate.mergePatch (prev : DataUpdate) (p : DataUpdatePatch) : DataUpdate :=
  { status := p.status <|> prev.status
    done := p.done <|> prev.done
    total := p.total <|> prev.total
    current_symbol := p.current_symbol <|> prev.current_symbol
    last_update := p.last_update <|> prev.last_update
    error := p.error <|> prev.error }

/-- The `status` branch of `ws.onmessage`: `setStatus(data.data)`, then
`if (data.data?.data_update)` shallow-merge it into `dataUpdateStatus`. -/
def handleStatusFrame {σ : Type} (st : AppMsgState σ) (payload : σ)
    (du : Option DataUpdatePatch) : AppMsgState σ :=
  let st := { st with status := some payload }
  match du with
  | none => st
  | some p =>
      { st with
          dataUpdateStatus :=
            some (DataUpdate.mergePatch (st.dataUpdateStatus.getD {}) p) }

/-- The `data_update_progress` branch of `ws.onmessage`:
```
setDataUpdateStatus(prev => ({
  ...(prev || {}),
  status: 'running',
  done: data.data?.done || 0,
  total: data.data?.total || 0,
  current_symbol: data.data?.current_symbol
}));
```
The explicit `current_symbol:` key is written even when the incoming
frame lacks it (then as `undefined`, i.e. `none`), so it always replaces
the prior value. -/
def handleProgressFrame {σ : Type} (st : AppMsgState σ) (pd : ProgressData) :
    AppMsgState σ :=
  let prev := st.dataUpdateStatus.getD {}
  { st with
      dataUpdateStatus :=
        some { prev with
                 status := some "running"
                 done := some (pd.done.getD 0)
                 total := some (pd.total.getD 0)
                 current_symbol := pd.current_symbol } }

/-- C4, counterexample — a `data_update_progress` frame carrying only
`done` and `total` does *not* leave the prior `current_symbol` in place:
starting from a slice with `current_symbol = "AAPL"`, the frame
`{done: 3, total: 10}` leaves `current_symbol` absent, not `"AAPL"`. -/
theorem progress_frame_clears_current_symbol_counterexample :
    ((handleProgressFrame
        { status := none
          dataUpdateStatus :=
            some { status := some "running", done := some 2, total := some 10,
                   current_symbol := some "AAPL" } }
        { done := some 3, total := some 10 } : AppMsgState Unit)
      ).dataUpdateStatus
      = some { status := some "running", done := some 3, total := some 10,
               current_symbol := none } := by
  rfl

/-- C4, amended — a `status` frame whose payload lacks a `data_update` key
leaves the stored `data_update` slice unchanged, and a present sub-object
is shallow-merged with absent fields preserved; a `data_update_progress`
frame carrying only `done` and `total` re-sets `status` to `"running"`
and updates `done` and `total`, but writes its (absent) `current_symbol`
field over the prior value, clearing it. -/
theorem status_and_progress_frame_effects {σ : Type} (st : AppMsgState σ)
    (payload : σ) (p : DataUpdatePatch) (pd : ProgressData) :
    (handleStatusFrame st payload none).dataUpdateStatus = st.dataUpdateStatus ∧
    (handleStatusFrame st payload none).status = some payload ∧
    (∀ prev, st.dataUpdateStatus = some prev →
      (handleStatusFrame st payload (some p)).dataUpdateStatus
        = some { status := p.status <|> prev.status
                 done := p.done <|> prev.done
                 total := p.total <|> prev.total
                 current_symbol := p.current_symbol <|> prev.current_symbol
                 last_update := p.last_update <|> prev.last_update
                 error := p.error <|> prev.error }) ∧
    (∀ prev, st.dataUpdateStatus = some prev →
      ∀ d t, pd = { done := some d, total := some t, current_symbol := none } →
        (handleProgressFrame st pd).dataUpdateStatus
          = some { prev with
              status := some "running"
              done := some d
              total := some t
              current_symbol := none }) := by
  refine ⟨rfl, rfl, ?_, ?_⟩
  · intro prev hprev
    simp [handleStatusFrame, hprev, DataUpdate.mergePatch]
  · intro prev hprev d t hpd
    simp [handleProgressFrame, hprev, hpd]

/-- Witness for `status_and_progress_frame_effects`: with a stored slice
`{status: running, done: 2, total: 10, current_symbol: "AAPL"}`, a
`status` frame without `data_update` keeps it; one whose sub-object has
only `last_update` keeps all other fields; and the progress frame
`{done: 3, total: 10}` updates those two fields, keeps
`status: "running"`, and clears `current_symbol`. -/
theorem status_and_progress_frame_effects_witness :
    ((handleStatusFrame
        { status := none
          dataUpdateStatus :=
            some { status := some "running", done := some 2, total := some 10,
                   current_symbol := some "AAPL" } }
        () none : AppMsgState Unit)).dataUpdateStatus
      = some { status := some "running", done := some 2, total := some 10,
               current_symbol := some "AAPL" } ∧
    ((handleStatusFrame
        { status := none
          dataUpdateStatus :=
            some { status := some "running", done := some 2, total := some 10,
                   current_symbol := some "AAPL" } }
        () (some { last_update := some "t0" }) : AppMsgState Unit)).dataUpdateStatus
      = some { status := some "running", done := some 2, total := some 10,
               current_symbol := some "AAPL", last_update := some "t0" } ∧
    ((handleProgressFrame
        { status := none
          dataUpdateStatus :=
            some { status := some "running", done := some 2, total := some 10,
                   current_symbol := some "AAPL" } }
        { done := some 3, total := some 10 } : AppMsgState Unit)).dataUpdateStatus
      = some { status := some "running", done := some 3, total := some 10,
               current_symbol := none } := by
  have h := status_and_progress_frame_effects
    (σ := Unit)
    { status := none
      dataUpdateStatus :=
        some { status := some "running", done := some 2, total := some 10,
               current_symbol := some "AAPL" } }
    () { last_update := some "t0" } { done := some 3, total := some 10 }
  refine ⟨h.1, ?_, ?_⟩
  · rw [h.2.2.1 _ rfl]
    rfl
  · rw [h.2.2.2 _ rfl 3 10 rfl]

/-! ### Sort engine (`components/ScannerTable.jsx`: `nextDir`, `handleSort`,
    `getScanSortValue`, `applySort`) -/

/-- The two sort directions (`ASC = 'asc'`, `DESC = 'desc'`). -/
inductive Dir where
  | asc
  | desc
  deriving DecidableEq, Repr

/-- `nextDir(current)`: `null → ASC → DESC → null`. -/
def nextDir : Option Dir → Option Dir
  | none => some .asc
  | some .asc => some .desc
  | some .desc => none

/-- `const SORTABLE = new Set(['symbol', 'price', 'week_52_high', 'volume', 'entry_price']);` -/
def SORTABLE : List String := ["symbol", "price", "week_52_high", "volume", "entry_price"]

/-- The per-table sort spec: `sortCol` / `sortDir` component state. -/
structure SortState where
  sortCol : Option String := none
  sortDir : Option Dir := none
  deriving DecidableEq, Repr

/-- `handleSort(col)`: ignore non-sortable columns; cycle the direction on
the active column (clearing both fields when the cycle wraps); switch to
ascending on a new column. -/
def handleSort (s : SortState) (col : String) : SortState :=
  if col ∉ SORTABLE then s
  else if s.sortCol = some col then
    match nextDir s.sortDir with
    | none => { sortCol := none, sortDir := none }
    | some d => { s with sortDir := some d }
  else { sortCol := some col, sortDir := some .asc }

/-- A comparator key produced by `getScanSortValue`: a lowercased string
for the symbol column, `-Infinity` for a missing numeric field, or a
number. -/
inductive SortVal where
  | str (s : String)
  | ninf
  | num (v : Int)
  deriving DecidableEq, Repr

/-- JavaScript `<` on two sort keys.  Within one `applySort` call both
keys come from the same column, so only string/string and
number/number (incl. `-Infinity`) comparisons are reachable; the
cross-kind cases are therefore given the inert value `false`. -/
def SortVal.jsLT : SortVal → SortVal → Bool
  | .str a, .str b => decide (a < b)
  | .num a, .num b => decide (a < b)
  | .ninf, .num _ => true
  | _, _ => false

/-- `getScanSortValue(r, col)` — the `switch` over column names; note the
source's `entry_price` arm also reads `r.price` (entry shown = scan
price). -/
def getScanSortValue (r : Row) (col : String) : SortVal :=
  if col = "symbol" then .str r.symbol.toLower
  else if col = "price" then
    match r.price with
    | some v => .num v
    | none => .ninf
  else if col = "week_52_high" then
    match r.week_52_high with
    | some v => .num v
    | none => .ninf
  else if col = "volume" then
    match r.volume with
    | some v => .num v
    | none => .ninf
  else if col = "entry_price" then
    match r.price with
    | some v => .num v
    | none => .ninf
  else .num 0

/-- The comparator passed to `sort`: `-1`/`1`/`0` from `av < bv` /
`av > bv` / tie, with the signs flipped for descending. -/
def scanCmp (d : Dir) (col : String) (a b : Row) : Int :=
  let av := getScanSortValue a col
  let bv := getScanSortValue b col
  if av.jsLT bv then (match d with | .asc => -1 | .desc => 1)
  else if bv.jsLT av then (match d with | .asc => 1 | .desc => -1)
  else 0

/-- `applySort(rows, col, dir)`: identity when either is unset (or the
column name is the falsy `''`), otherwise a stable sort by the
comparator (`[...rows].sort(...)`; ECMAScript sorts are stable, hence
`List.mergeSort` on the comparator's "not after" relation). -/
def applySort (rows : List Row) (col : Option String) (dir : Option Dir) : List Row :=
  match col, dir with
  | some c, some d =>
      if c = "" then rows else rows.mergeSort (fun a b => scanCmp d c a b ≤ 0)
  | _, _ => rows

/-- C7 — activating a sortable column walks `none → ascending →
descending → none`; activating a different column resets to ascending
regardless of the previous state; and after the third activation the
sort spec is cleared, so `applySort` returns the rows in their original
fetch order. -/
theorem sort_cycle_restores_order (col : String) (hcol : col ∈ SORTABLE)
    (rows : List Row) :
    handleSort { sortCol := none, sortDir := none } col
      = { sortCol := some col, sortDir := some .asc } ∧
    handleSort { sortCol := some col, sortDir := some .asc } col
      = { sortCol := some col, sortDir := some .desc } ∧
    handleSort { sortCol := some col, sortDir := some .desc } col
      = { sortCol := none, sortDir := none } ∧
    (∀ (c' : String) (d : Option Dir), c' ≠ col →
      handleSort { sortCol := some c', sortDir := d } col
        = { sortCol := some col, sortDir := some .asc }) ∧
    (let s3 := handleSort (handleSort (handleSort
        { sortCol := none, sortDir := none } col) col) col
     applySort rows s3.sortCol s3.sortDir = rows) := by
  have h1 : handleSort { sortCol := none, sortDir := none } col
      = { sortCol := some col, sortDir := some .asc } := by
    simp [handleSort, hcol]
  have h2 : handleSort { sortCol := some col, sortDir := some .asc } col
      = { sortCol := some col, sortDir := some .desc } := by
    simp [handleSort, hcol, nextDir]
  have h3 : handleSort { sortCol := some col, sortDir := some .desc } col
      = { sortCol := none, sortDir := none } := by
    simp [handleSort, hcol, nextDir]
  refine ⟨h1, h2, h3, ?_, ?_⟩
  · intro c' d hne
    simp [handleSort, hcol, hne, Ne.symm hne]
  · simp only [h1, h2, h3]
    rfl

/-- Witness for `sort_cycle_restores_order`: three clicks on the `price`
header starting unsorted leave a two-row table in fetch order. -/
theorem sort_cycle_restores_order_witness :
    (let s3 := handleSort (handleSort (handleSort
        { sortCol := none, sortDir := none } "price") "price") "price"
     applySort [⟨"B", some 5, none, none, none, none, false, false⟩,
                ⟨"A", none, none, none, none, none, false, false⟩]
        s3.sortCol s3.sortDir
       = [⟨"B", some 5, none, none, none, none, false, false⟩,
          ⟨"A", none, none, none, none, none, false, false⟩]) := by
  exact (sort_cycle_restores_order "price" (by decide)
    [⟨"B", some 5, none, none, none, none, false, false⟩,
     ⟨"A", none, none, none, none, none, false, false⟩]).2.2.2.2

/-- The sortable scanner columns whose keys are numeric (every `SORTABLE`
column except `symbol`). -/
def numericScanCols : List String := ["price", "week_52_high", "volume", "entry_price"]

/-- The `Option Int` field each numeric column reads (the `entry_price`
arm reads `r.price`, as in the source). -/
def scanColField (r : Row) (c : String) : Option Int :=
  if c = "price" then r.price
  else if c = "week_52_high" then r.week_52_high
  else if c = "volume" then r.volume
  else if c = "entry_price" then r.price
  else none

/-- A numeric-family sort key: `-Infinity` or a number. -/
def SortVal.isNum (v : SortVal) : Prop := v = .ninf ∨ ∃ q, v = .num q

theorem getScanSortValue_numeric (c : String) (hc : c ∈ numericScanCols) (r : Row) :
    (scanColField r c = none → getScanSortValue r c = .ninf) ∧
    (∀ v, scanColField r c = some v → getScanSortValue r c = .num v) := by
  simp only [numericScanCols, List.mem_cons, List.mem_singleton,
    List.not_mem_nil, or_false] at hc
  rcases hc with rfl | rfl | rfl | rfl <;>
    exact ⟨fun h => by simp [getScanSortValue, scanColField] at h ⊢; simp [h],
           fun v h => by simp [getScanSortValue, scanColField] at h ⊢; simp [h]⟩

theorem getScanSortValue_isNum (c : String) (hc : c ∈ numericScanCols) (r : Row) :
    (getScanSortValue r c).isNum := by
  have h := getScanSortValue_numeric c hc r
  rcases hv : scanColField r c with - | v
  · exact Or.inl (h.1 hv)
  · exact Or.inr ⟨v, h.2 v hv⟩

theorem SortVal.jsLT_irrefl (v : SortVal) : v.jsLT v = false := by
  cases v <;> simp [jsLT]

theorem SortVal.jsLT_to_ninf (v : SortVal) : v.jsLT .ninf = false := by
  cases v <;> rfl

theorem SortVal.jsLT_asymm (a b : SortVal) (h : a.jsLT b = true) : b.jsLT a = false := by
  cases a <;> cases b <;> simp_all [jsLT]
  all_goals exact le_of_lt (by assumption)

theorem SortVal.jsLT_false_trans_num {x y z : SortVal}
    (hx : x.isNum) (hy : y.isNum) (hz : z.isNum)
    (h1 : y.jsLT x = false) (h2 : z.jsLT y = false) : z.jsLT x = false := by
  rcases hx with rfl | ⟨qx, rfl⟩
  · exact jsLT_to_ninf z
  · rcases hy with rfl | ⟨qy, rfl⟩
    · simp [jsLT] at h1
    · rcases hz with rfl | ⟨qz, rfl⟩
      · simp [jsLT] at h2
      · simp only [jsLT, decide_eq_false_iff_not] at h1 h2 ⊢
        omega

theorem scanCmp_asc_le (c : String) (a b : Row) :
    scanCmp .asc c a b ≤ 0
      ↔ (getScanSortValue b c).jsLT (getScanSortValue a c) = false := by
  unfold scanCmp
  by_cases h1 : (getScanSortValue a c).jsLT (getScanSortValue b c) = true
  · simp [h1, SortVal.jsLT_asymm _ _ h1]
  · by_cases h2 : (getScanSortValue b c).jsLT (getScanSortValue a c) = true <;>
      simp [h1, h2]

theorem scanCmp_desc_le (c : String) (a b : Row) :
    scanCmp .desc c a b ≤ 0
      ↔ (getScanSortValue a c).jsLT (getScanSortValue b c) = false := by
  unfold scanCmp
  by_cases h1 : (getScanSortValue a c).jsLT (getScanSortValue b c) = true
  · simp [h1]
  · by_cases h2 : (getScanSortValue b c).jsLT (getScanSortValue a c) = true <;>
      simp [h1, h2]

theorem scanLe_total (d : Dir) (c : String) (a b : Row) :
    (decide (scanCmp d c a b ≤ 0) || decide (scanCmp d c b a ≤ 0)) = true := by
  cases d
  · simp only [scanCmp_asc_le, Bool.or_eq_true, decide_eq_true_eq]
    by_cases h : (getScanSortValue b c).jsLT (getScanSortValue a c) = true
    · exact Or.inr (SortVal.jsLT_asymm _ _ h)
    · exact Or.inl (by simpa using h)
  · simp only [scanCmp_desc_le, Bool.or_eq_true, decide_eq_true_eq]
    by_cases h : (getScanSortValue a c).jsLT (getScanSortValue b c) = true
    · exact Or.inr (SortVal.jsLT_asymm _ _ h)
    · exact Or.inl (by simpa using h)

theorem scanLe_trans (d : Dir) (c : String) (hc : c ∈ numericScanCols)
    (a b e : Row) (h1 : decide (scanCmp d c a b ≤ 0) = true)
    (h2 : decide (scanCmp d c b e ≤ 0) = true) :
    decide (scanCmp d c a e ≤ 0) = true := by
  have hna := getScanSortValue_isNum c hc a
  have hnb := getScanSortValue_isNum c hc b
  have hne := getScanSortValue_isNum c hc e
  cases d
  · simp only [decide_eq_true_eq, scanCmp_asc_le] at h1 h2 ⊢
    exact SortVal.jsLT_false_trans_num hna hnb hne h1 h2
  · simp only [decide_eq_true_eq, scanCmp_desc_le] at h1 h2 ⊢
    exact SortVal.jsLT_false_trans_num hne hnb hna h2 h1

theorem applySort_eq_mergeSort (rows : List Row) (c : String) (hc : c ≠ "") (d : Dir) :
    applySort rows (some c) (some d)
      = rows.mergeSort (fun a b => scanCmp d c a b ≤ 0) := by
  simp [applySort, hc]

theorem applySort_filter_key (c : String) (hc : c ∈ numericScanCols) (d : Dir)
    (rows : List Row) (k : SortVal) :
    (applySort rows (some c) (some d)).filter
        (fun r => decide (getScanSortValue r c = k))
      = rows.filter (fun r => decide (getScanSortValue r c = k)) := by
  have hcne : c ≠ "" := by
    simp only [numericScanCols, List.mem_cons, List.mem_singleton,
      List.not_mem_nil, or_false] at hc
    rcases hc with rfl | rfl | rfl | rfl <;> decide
  rw [applySort_eq_mergeSort rows c hcne d]
  set p : Row → Bool := fun r => decide (getScanSortValue r c = k) with hp
  set le : Row → Row → Bool := fun a b => decide (scanCmp d c a b ≤ 0) with hle
  have hpair : (rows.filter p).Pairwise (fun a b => le a b = true) := by
    apply List.pairwise_of_forall_mem_list
    intro a ha b hb
    have hak : getScanSortValue a c = k := by
      have := (List.mem_filter.mp ha).2
      simpa [hp] using this
    have hbk : getScanSortValue b c = k := by
      have := (List.mem_filter.mp hb).2
      simpa [hp] using this
    have : scanCmp d c a b = 0 := by
      simp only [scanCmp]
      rw [hak, hbk]
      simp [SortVal.jsLT_irrefl]
    simp [hle, this]
  have hsub : List.Sublist (rows.filter p) (rows.mergeSort le) := by
    exact List.sublist_mergeSort
      (fun a b e h1 h2 => scanLe_trans d c hc a b e h1 h2)
      (fun a b => scanLe_total d c a b)
      hpair (List.filter_sublist rows)
  have hsub2 : List.Sublist ((rows.filter p).filter p) ((rows.mergeSort le).filter p) :=
    hsub.filter p
  rw [List.filter_filter] at hsub2
  have hself : rows.filter (fun a => p a && p a) = rows.filter p := by
    simp
  rw [hself] at hsub2
  have hlen : (rows.filter p).length = ((rows.mergeSort le).filter p).length := by
    rw [← List.countP_eq_length_filter, ← List.countP_eq_length_filter]
    exact ((rows.mergeSort_perm le).countP_eq p).symm
  exact (hsub2.eq_of_length hlen).symm

/-- C8 — on any numeric sortable column: a missing/null field value is
mapped to the `-Infinity` key; the comparator puts such a row before any
numeric-valued row ascending (`-1`) and after it descending (`1`);
consequently in the sorted output the missing-value rows form a prefix
ascending and a suffix descending; and rows with equal sort keys keep
their original relative order (the subsequence at each key value is
unchanged — stability). -/
theorem missing_value_sorts_first (col : String) (hcol : col ∈ numericScanCols)
    (rows : List Row) :
    (∀ r, (scanColField r col = none → getScanSortValue r col = .ninf) ∧
      (∀ v, scanColField r col = some v → getScanSortValue r col = .num v)) ∧
    (∀ a b q, getScanSortValue a col = .ninf → getScanSortValue b col = .num q →
      scanCmp .asc col a b = -1 ∧ scanCmp .desc col a b = 1) ∧
    ((applySort rows (some col) (some .asc)).Pairwise
      (fun a b => getScanSortValue b col = .ninf → getScanSortValue a col = .ninf)) ∧
    ((applySort rows (some col) (some .desc)).Pairwise
      (fun a b => getScanSortValue a col = .ninf → getScanSortValue b col = .ninf)) ∧
    (∀ (d : Dir) (k : SortVal),
      (applySort rows (some col) (some d)).filter
          (fun r => decide (getScanSortValue r col = k))
        = rows.filter (fun r => decide (getScanSortValue r col = k))) := by
  have hcne : col ≠ "" := by
    simp only [numericScanCols, List.mem_cons, List.mem_singleton,
      List.not_mem_nil, or_false] at hcol
    rcases hcol with rfl | rfl | rfl | rfl <;> decide
  refine ⟨getScanSortValue_numeric col hcol, ?_, ?_, ?_, ?_⟩
  · intro a b q ha hb
    constructor <;> (unfold scanCmp; rw [ha, hb]; simp [SortVal.jsLT])
  · rw [applySort_eq_mergeSort rows col hcne .asc]
    have hsorted := List.sorted_mergeSort
      (fun a b e h1 h2 => scanLe_trans .asc col hcol a b e h1 h2)
      (fun a b => scanLe_total .asc col a b) rows
    refine hsorted.imp ?_
    intro a b hab hbninf
    have hle : scanCmp .asc col a b ≤ 0 := by simpa using hab
    have hlt := (scanCmp_asc_le col a b).mp hle
    rcases getScanSortValue_isNum col hcol a with ha | ⟨q, ha⟩
    · exact ha
    · rw [ha, hbninf] at hlt
      simp [SortVal.jsLT] at hlt
  · rw [applySort_eq_mergeSort rows col hcne .desc]
    have hsorted := List.sorted_mergeSort
      (fun a b e h1 h2 => scanLe_trans .desc col hcol a b e h1 h2)
      (fun a b => scanLe_total .desc col a b) rows
    refine hsorted.imp ?_
    intro a b hab haninf
    have hle : scanCmp .desc col a b ≤ 0 := by simpa using hab
    have hlt := (scanCmp_desc_le col a b).mp hle
    rcases getScanSortValue_isNum col hcol b with hb | ⟨q, hb⟩
    · exact hb
    · rw [haninf, hb] at hlt
      simp [SortVal.jsLT] at hlt
  · intro d k
    exact applySort_filter_key col hcol d rows k

/-- Witness for `missing_value_sorts_first` on the `price` column: a row
with `price: null` compares `-1` (before) against a row with `price: 5`
ascending and `1` (after) descending, and the key-wise subsequences of a
concrete two-row sort equal those of the input. -/
theorem missing_value_sorts_first_witness :
    (scanCmp .asc "price"
        ⟨"A", none, none, none, none, none, false, false⟩
        ⟨"B", some 5, none, none, none, none, false, false⟩ = -1 ∧
      scanCmp .desc "price"
        ⟨"A", none, none, none, none, none, false, false⟩
        ⟨"B", some 5, none, none, none, none, false, false⟩ = 1) ∧
    ((applySort [⟨"B", some 5, none, none, none, none, false, false⟩,
                 ⟨"A", none, none, none, none, none, false, false⟩]
        (some "price") (some .asc)).filter
          (fun r => decide (getScanSortValue r "price" = .ninf))
      = [⟨"B", some 5, none, none, none, none, false, false⟩,
         ⟨"A", none, none, none, none, none, false, false⟩].filter
          (fun r => decide (getScanSortValue r "price" = .ninf))) := by
  constructor
  · exact (missing_value_sorts_first "price" (by decide) []).2.1
      ⟨"A", none, none, none, none, none, false, false⟩
      ⟨"B", some 5, none, none, none, none, false, false⟩ 5 (by decide) (by decide)
  · exact (missing_value_sorts_first "price" (by decide)
      [⟨"B", some 5, none, none, none, none, false, false⟩,
       ⟨"A", none, none, none, none, none, false, false⟩]).2.2.2.2 .asc .ninf
